import Mathlib

/-!
Verification of the Gothic Architecture Tools mesh operators.

This development shallowly embeds the Python source of `gothic_tools.py` and
`add_edge_loop_cone.py` in Lean 4.  Coordinates are modelled as exact
rationals; the source computes with floating point, and every numeric step of
the source that is algebraic over its inputs (sums, products, cross and dot
products, lerp, means) is reproduced exactly.  Square roots (vector lengths
and normalisation) are modelled by an exact partial rational square root:
functions that normalise a vector are `Option`-valued and defined exactly on
inputs whose squared norm is a perfect rational square.  Where the source
only *compares* two lengths (`magnitude > best_magnitude`, sort keys built
from a distance), the model compares the squared lengths instead: `sqrt` is
strictly monotone on nonnegatives, so the comparison results are identical.

Python `set` iteration order is unspecified; the model determinizes it
(insertion order for set-building loops, ascending id order where a set is
converted to a list).  None of the verified properties depend on that order.
-/

/- Batteries marks the `Rat` field operations `@[irreducible]` so that
definitional unfolding never normalises fractions by accident; that default
also stops `decide` from evaluating the model on concrete meshes.  Restoring
the ordinary transparency is a pure elaboration-level change (the kernel
ignores reducibility attributes), made here so concrete runs of the embedded
operators reduce inside `decide`. -/
set_option allowUnsafeReducibility true in
attribute [semireducible] Rat.add Rat.sub Rat.mul Rat.inv Rat.ofScientific

/-- A 3-vector with exact rational coordinates, standing for `mathutils.Vector`. -/
structure Vec3 where
  x : ℚ
  y : ℚ
  z : ℚ
deriving DecidableEq

def Vec3.zero : Vec3 := ⟨0, 0, 0⟩

def Vec3.add (a b : Vec3) : Vec3 := ⟨a.x + b.x, a.y + b.y, a.z + b.z⟩

def Vec3.sub (a b : Vec3) : Vec3 := ⟨a.x - b.x, a.y - b.y, a.z - b.z⟩

def Vec3.neg (a : Vec3) : Vec3 := ⟨-a.x, -a.y, -a.z⟩

instance : Add Vec3 := ⟨Vec3.add⟩

instance : Sub Vec3 := ⟨Vec3.sub⟩

instance : Neg Vec3 := ⟨Vec3.neg⟩

/-- Scalar multiple `q * v`. -/
def Vec3.smul (q : ℚ) (a : Vec3) : Vec3 := ⟨q * a.x, q * a.y, q * a.z⟩

/-- Dot product (`Vector.dot`). -/
def Vec3.dot (a b : Vec3) : ℚ := a.x * b.x + a.y * b.y + a.z * b.z

/-- Cross product (`Vector.cross`). -/
def Vec3.cross (a b : Vec3) : Vec3 :=
  ⟨a.y * b.z - a.z * b.y, a.z * b.x - a.x * b.z, a.x * b.y - a.y * b.x⟩

/-- Squared Euclidean norm; the source's `Vector.length` is `sqrt (normSq v)`. -/
def Vec3.normSq (a : Vec3) : ℚ := a.x * a.x + a.y * a.y + a.z * a.z

/-- Integer square root by bounded search (structural recursion, so that
concrete instances reduce inside the kernel; the arguments arising here are
tiny). -/
def natSqrtL (n : Nat) : Nat :=
  ((List.range (n + 1)).filter (fun k => k * k ≤ n)).getLastD 0

/-- Exact rational square root: `some s` with `s * s = q` when `q` is a perfect
rational square, `none` otherwise.  Used to model the float `sqrt` of the
source exactly on representable inputs. -/
def ratSqrtOpt (q : ℚ) : Option ℚ :=
  if q < 0 then none
  else
    let n := q.num.toNat
    let d := q.den
    let sn := natSqrtL n
    let sd := natSqrtL d
    if sn * sn = n ∧ sd * sd = d then some ((sn : ℚ) / (sd : ℚ)) else none

/-- `Vector.normalized()` / in-place `normalize()`: the zero vector stays zero,
a nonzero vector is scaled to unit length.  Defined (`some`) exactly when the
length is rational. -/
def vnormalize (v : Vec3) : Option Vec3 :=
  match ratSqrtOpt v.normSq with
  | none => none
  | some L => if L = 0 then some v else some (Vec3.smul (1 / L) v)

/-- The rotation taking unit vector `a` to unit vector `b` (the action of
`mathutils` `rotation_difference(a, b)` for unit inputs), applied to `p`, in
square-root-free Rodrigues form: with `c = a × b` and `d = a ⬝ b`,
`R p = d p + c × p + ((c ⬝ p)/(1 + d)) c`.  The antipodal case `1 + d = 0`
is unreachable at the call site (the edge direction is first flipped to within
90 degrees of the target) and is guarded as the identity for totality. -/
def rotDiffApply (a b p : Vec3) : Vec3 :=
  let c := Vec3.cross a b
  let d := Vec3.dot a b
  if 1 + d = 0 then p
  else Vec3.smul d p + Vec3.cross c p + Vec3.smul (Vec3.dot c p / (1 + d)) c

/-- `bezier_curve(t, p0, p1, p2, p3)` from `gothic_tools.py`: cubic Bezier value. -/
def bezier_curve (t p0 p1 p2 p3 : ℚ) : ℚ :=
  let u := 1 - t
  u ^ 3 * p0 + 3 * u ^ 2 * t * p1 + 3 * u * t ^ 2 * p2 + t ^ 3 * p3

/-- `fast_in_out_bezier(t, sharpness_in, sharpness_out)` from `gothic_tools.py`:
clamps `t` to `[0,1]` and the sharpness parameters to `[-2,2]`, then evaluates
the Bezier with endpoints 0 and 1 and the sharpness values as control points. -/
def fast_in_out_bezier (t si so : ℚ) : ℚ :=
  let t2 := max 0 (min 1 t)
  let si2 := max (-2) (min 2 si)
  let so2 := max (-2) (min 2 so)
  bezier_curve t2 0 si2 so2 1

/-- Python-level failures the embedded code can raise, plus `fuelOut`, an
artifact of the fuel-indexed walk that is proved unreachable on well-formed
input (theorem for claim C4). -/
inductive PyErr where
  | attributeError : PyErr
  | indexError : PyErr
  | fuelOut : PyErr
deriving DecidableEq

deriving instance DecidableEq for Except

/-- Mesh topology as seen by `get_window_faces_between` and `loopcut_between`:
faces and edges are ids; `fedges f` is `f.edges`, `efaces e` is `e.link_faces`,
`everts e` is `e.verts`.  `faces` lists the face universe (`bm.faces`), used
only to bound the walk's fuel. -/
structure Topo where
  faces : List Nat
  fedges : Nat → List Nat
  efaces : Nat → List Nat
  everts : Nat → List Nat

/-- `face_touches(face, edge)`: the edge is among the face's edges. -/
def face_touches (t : Topo) (f e : Nat) : Bool := (t.fedges f).elem e

/-- `edge_between(face, other)`: the first edge of `face` that also touches
`other`, if any. -/
def edge_between (t : Topo) (f g : Nat) : Option Nat :=
  (t.fedges f).find? (fun e => face_touches t g e)

/-- `get_opposite_edge(face, boundary_edge)`: the first edge of the face,
other than the boundary edge, sharing no vertex with it. -/
def get_opposite_edge (t : Topo) (f b : Nat) : Option Nat :=
  (t.fedges f).find? (fun e => e ≠ b && (t.everts e).all (fun v => !(t.everts b).elem v))

/-- `get_opposite_face(face, boundary_edge)`: `None` when there is no opposite
edge; otherwise the first link face of the opposite edge different from
`face` — indexing `[0]` into that list raises `IndexError` when it is empty. -/
def get_opposite_face (t : Topo) (f b : Nat) : Except PyErr (Option Nat) :=
  match get_opposite_edge t f b with
  | none => .ok none
  | some e =>
    match (t.efaces e).filter (fun g => g ≠ f) with
    | [] => .error .indexError
    | g :: _ => .ok (some g)

/-- `get_next_face(face, prev_face)`. -/
def get_next_face (t : Topo) (f prev : Nat) : Except PyErr (Option Nat) :=
  match edge_between t f prev with
  | some e => get_opposite_face t f e
  | none => .ok none

/-- The `while next_face:` loop of `get_window_faces_between` (source lines
122–133), indexed by fuel.  State: `fb` is `faces_between` (nonempty, last
element the face most recently appended), `nf` the current `next_face`.
After appending, the source computes the next face from `faces_between[-2]`
(the previous last element), then runs the three stop checks; a `None`
next face reaches `face_touches(None, ending_boundary)`, which dereferences
`None.edges` — an `AttributeError`. -/
def walkLoop (t : Topo) (ending : Nat) (old : List Nat) :
    Nat → List Nat → Option Nat → Except PyErr (List Nat)
  | _, fb, none => .ok fb
  | 0, _, some _ => .error .fuelOut
  | fuel + 1, fb, some f =>
    let fb2 := fb ++ [f]
    match get_next_face t f (fb.getLastD 0) with
    | .error e => .error e
    | .ok none => .error .attributeError
    | .ok (some g) =>
      if face_touches t g ending then .ok fb2
      else if g ∈ fb2 then .ok fb2
      else if g ∈ old then .ok fb2
      else walkLoop t ending old fuel fb2 (some g)

/-- `get_window_faces_between(first, second, new_faces, old_faces)` (source
lines 70–133).  The source iterates over the Python set `new_faces` in
unspecified order; the model takes it as a list and keeps its order. -/
def get_window_faces_between (t : Topo) (first second : Nat)
    (new_faces old_faces : List Nat) : Except PyErr (List Nat) :=
  let go := fun (starting ending sf : Nat) =>
    match get_opposite_face t sf starting with
    | .error e => .error e
    | .ok none => .ok [sf]
    | .ok (some nf) => walkLoop t ending old_faces (t.faces.length + 1) [sf] (some nf)
  match new_faces.filter (fun f => face_touches t f first) with
  | sf :: _ => go first second sf
  | [] =>
    match new_faces.filter (fun f => face_touches t f second) with
    | sf :: _ => go second first sf
    | [] => .ok []

/-- `set.add`: Python sets are modelled as duplicate-free lists in insertion
order (set iteration order is unspecified in Python; no verified property
depends on it). -/
def sadd (s : List Nat) (e : Nat) : List Nat := if s.elem e then s else s ++ [e]

/-- The mutable region state threaded through `loopcut_between`:
`faces`/`edges` are Python lists, `boundary`/`allE` the Python sets
`boundary_edges` and `all_edges`. -/
structure Region where
  faces : List Nat
  edges : List Nat
  boundary : List Nat
  allE : List Nat
deriving DecidableEq

/-- Result of `loopcut_between`: the updated region plus the returned pair
`(new_window_faces, new_window_edges)`. -/
structure LCRes where
  region : Region
  newWindowFaces : List Nat
  newWindowEdges : List Nat
deriving DecidableEq

/-- The classification loop over `new_edges` (source lines 162–169): an edge
with a link face in the region's face list joins `all_edges`; if it also has a
link face outside the face list it joins `boundary_edges`, otherwise it is
appended to the side's edge list and to `new_window_edges`. -/
def classifyNewEdges (t : Topo) (faces1 : List Nat) :
    List Nat → List Nat → List Nat → List Nat → List Nat →
    List Nat × List Nat × List Nat × List Nat
  | [], al, bd, ed, nwe => (al, bd, ed, nwe)
  | e :: rest, al, bd, ed, nwe =>
    if (t.efaces e).any (fun f => faces1.elem f) then
      if (t.efaces e).any (fun f => !faces1.elem f) then
        classifyNewEdges t faces1 rest (sadd al e) (sadd bd e) ed nwe
      else
        classifyNewEdges t faces1 rest (sadd al e) bd (ed ++ [e]) (nwe ++ [e])
    else classifyNewEdges t faces1 rest al bd ed nwe

/-- `loopcut_between(first, second, faces, edges, boundary_edges, all_edges,
bm, obj, n, report)` (source lines 137–171).  The host's loop-cut command is an
external collaborator: the model receives the post-cut topology `t` and the
cut's face/edge delta `newFaces`/`newEdges` (the source computes the delta by
set difference against pre-cut snapshots).  The search for a face containing
both input edges keeps the *last* match (the loop has no `break`); when there
is no match, `face` stays `None` and `face.edges` raises `AttributeError`.
The source passes `new_edges` as `get_window_faces_between`'s `old_faces`
argument; a Python face object never equals an edge object, so faithful
instances of the model keep face ids and edge ids disjoint. -/
def loopcut_between (t : Topo) (first second : Nat) (r : Region)
    (newFaces newEdges : List Nat) : Except PyErr LCRes :=
  match (r.faces.filter (fun f => face_touches t f first && face_touches t f second)).getLast? with
  | none => .error .attributeError
  | some face =>
    match (t.fedges face).filter (fun e => e ≠ first && e ≠ second) with
    | [] => .error .indexError
    | _ :: _ =>
      match get_window_faces_between t first second newFaces newEdges with
      | .error e => .error e
      | .ok nwf =>
        let faces1 := r.faces ++ nwf
        let res := classifyNewEdges t faces1 newEdges r.allE r.boundary r.edges []
        .ok ⟨⟨faces1, res.2.2.1, res.2.1, res.1⟩, nwf, res.2.2.2⟩

/-- Mesh data read by the precondition phase of
`MESH_OT_ConvertInsetToLancetWindow.execute`: vertex coordinates by id, each
edge's vertex pair, each edge's `link_faces`, and each face's selection flag. -/
structure GMesh where
  vco : List Vec3
  everts : List (Nat × Nat)
  efaces : List (List Nat)
  fsel : List Bool
deriving DecidableEq

/-- The report messages the operator can emit before mutating geometry. -/
inductive RMsg where
  /-- `"Active object must be a mesh"` -/
  | activeObjectMustBeMesh : RMsg
  /-- `"No faces selected"` -/
  | noFacesSelected : RMsg
  /-- `"No boundary edges found"` -/
  | noBoundaryEdgesFound : RMsg
deriving DecidableEq

/-- Outcome of the operator's precondition phase: a reported cancellation, an
uncaught Python exception, or fall-through into the mutation phase. -/
inductive Outcome where
  | cancelled : RMsg → Outcome
  | exc : PyErr → Outcome
  | proceed : Outcome
deriving DecidableEq

/-- `[f for f in bm.faces if f.select]` as a list of face ids. -/
def selectedFacesOf (m : GMesh) : List Nat :=
  (List.range m.fsel.length).filter (fun f => m.fsel.getD f false)

/-- `sum([f in selected_faces for f in e.link_faces])`: how many of the edge's
link faces (with multiplicity) are selected. -/
def linkedSelCount (m : GMesh) (e : Nat) : Nat :=
  ((m.efaces.getD e []).filter (fun f => m.fsel.getD f false)).length

/-- The classification loop over `bm.edges` (source lines 411–418): an edge
with a selected link face joins `selected_edges`; it also joins
`boundary_edges` when its selected-link-face count differs from 2.  The two
Python sets are modelled as insertion-ordered lists, which here means
ascending edge id. -/
def classify (m : GMesh) : List Nat × List Nat :=
  (List.range m.everts.length).foldl
    (fun acc e =>
      let c := linkedSelCount m e
      if 0 < c then (sadd acc.1 e, if c ≠ 2 then sadd acc.2 e else acc.2)
      else acc)
    ([], [])

/-- `edge_avg_z(edge)`: mean `z` of the edge's two vertices. -/
def edge_avg_z (m : GMesh) (e : Nat) : ℚ :=
  let p := m.everts.getD e (0, 0)
  ((m.vco.getD p.1 Vec3.zero).z + (m.vco.getD p.2 Vec3.zero).z) / 2

/-- `max(edge_avg_z(e) for e in selected_edges)`; the selected-edge set is
nonempty whenever the boundary check has passed.  The Python set is iterated
in unspecified order; `max` does not depend on it. -/
def maxAvgZ (m : GMesh) (sel : List Nat) : ℚ :=
  (sel.map (edge_avg_z m)).foldl max ((sel.map (edge_avg_z m)).headD 0)

/-- `top_edges` (source line 431): selected edges within `tol = 0.001` of the
maximal average z that are not boundary edges, in ascending id order (the
source's order comes from Python set iteration and is unspecified). -/
def top_edgesOf (m : GMesh) : List Nat :=
  let sb := classify m
  let mz := maxAvgZ m sb.1
  sb.1.filter (fun e => |edge_avg_z m e - mz| < 1/1000 ∧ ¬ sb.2.elem e)

/-- `vec = edges[i].verts[1].co - edges[i].verts[0].co`. -/
def edgeVecOf (m : GMesh) (e : Nat) : Vec3 :=
  let p := m.everts.getD e (0, 0)
  (m.vco.getD p.2 Vec3.zero) - (m.vco.getD p.1 Vec3.zero)

/-- All index pairs `i < j` of a list, in the nested-loop order of the source. -/
def allPairs : List α → List (α × α)
  | [] => []
  | x :: xs => xs.map (fun y => (x, y)) ++ allPairs xs

/-- `find_perpendicular_vector(edges)` (source lines 435–452): scans all pairs
of boundary edges and keeps the cross product of largest magnitude, starting
from `best_magnitude = 0` with a strict `>` update; returns `None` when no
pair improves on 0 (in particular when fewer than two edges exist).  The model
compares squared magnitudes (`sqrt` is strictly monotone on nonnegatives) and
returns the unnormalised best cross product: the source normalises it, which
never turns a found vector into `None` and never changes its direction. -/
def find_perpendicular_vector (m : GMesh) (edges : List Nat) : Option Vec3 :=
  ((allPairs edges).foldl
    (fun acc pr =>
      let cp := Vec3.cross (edgeVecOf m pr.1) (edgeVecOf m pr.2)
      if cp.normSq > acc.2 then (some cp, cp.normSq) else acc)
    ((none : Option Vec3), (0 : ℚ))).1

/-- The world the operator starts from: whether `context.active_object` exists
and has type `'MESH'`, and the mesh itself. -/
structure GWorld where
  activeMesh : Bool
  mesh : GMesh
deriving DecidableEq

/-- The precondition phase of `MESH_OT_ConvertInsetToLancetWindow.execute`
(source lines 389–457), through the axis computation: active-object check,
selected-face check, boundary classification and check, top-edge extraction
(`list(top_edges)[0]` raises `IndexError` when empty), axis detection, and the
dereference `Vector((-forward.y, forward.x, 0))`, which raises
`AttributeError` when `find_perpendicular_vector` returned `None`.  No mesh
geometry is mutated anywhere in this phase, so the mesh is returned unchanged
alongside the outcome. -/
def executePrecheck (w : GWorld) : Outcome × GMesh :=
  if !w.activeMesh then (.cancelled .activeObjectMustBeMesh, w.mesh)
  else
    let m := w.mesh
    if selectedFacesOf m = [] then (.cancelled .noFacesSelected, m)
    else
      let sb := classify m
      if sb.2 = [] then (.cancelled .noBoundaryEdgesFound, m)
      else
        match top_edgesOf m with
        | [] => (.exc .indexError, m)
        | _ :: _ =>
          match find_perpendicular_vector m sb.2 with
          | none => (.exc .attributeError, m)
          | some _ => (.proceed, m)

/-- Vertex coordinate store for the spacing phase: position by vertex id.
`rd`/`wr` are the reads and in-place writes of `v.co`. -/
def rd (st : List Vec3) (i : Nat) : Vec3 := st.getD i Vec3.zero

/-- Write position `v` at vertex id `i` (no-op beyond the store's length). -/
def wr (st : List Vec3) (i : Nat) (v : Vec3) : List Vec3 := st.set i v

/-- A wall edge as its two vertex ids (`edge.verts`). -/
def WallE := Nat × Nat
deriving DecidableEq

/-- The center used throughout the spacing code:
`sum((v.co for v in wall.verts), Vector()) / 2`.  (`move_to` and
`move_vertically` divide by `len(e.verts)` for a leaked loop variable `e`,
but every edge has exactly 2 vertices, so the divisor is 2 in all cases.) -/
def edgeCenter (st : List Vec3) (w : WallE) : Vec3 :=
  Vec3.smul (1/2) (rd st w.1 + rd st w.2)

/-- `align_edge_to_vector(edge, target_vector)` (source lines 48–68) on the
two endpoint positions: normalise the edge direction and the target (both
`Option`-valued over ℚ), return the endpoints unchanged when the normalised
edge direction has length 0, flip the target when the angle between them
exceeds 90 degrees (for unit vectors: negative dot product; the source's
`angle(·, 0)` fallback returns 0 for a zero vector, and then the dot product
is 0 too, so neither flips; the source compares against `90 * 3.14159265/180`,
a hair below the exact right angle modelled here — a discrepancy of order
1e-9 radians that affects none of the verified properties), and rotate both
endpoints about the midpoint by the rotation taking the edge direction to the
target. -/
def align_edge_to_vector (v1 v2 target : Vec3) : Option (Vec3 × Vec3) :=
  match vnormalize (v2 - v1), vnormalize target with
  | some ev, some tv =>
    if ev = Vec3.zero then some (v1, v2)
    else
      let tv2 := if ev.dot tv < 0 then -tv else tv
      let mid := Vec3.smul (1/2) (v1 + v2)
      some (mid + rotDiffApply ev tv2 (v1 - mid), mid + rotDiffApply ev tv2 (v2 - mid))
  | _, _ => none

/-- Apply `align_edge_to_vector` to one wall edge of the store. -/
def alignWall (target : Vec3) (st : List Vec3) (w : WallE) : Option (List Vec3) :=
  match align_edge_to_vector (rd st w.1) (rd st w.2) target with
  | none => none
  | some (p1, p2) => some (wr (wr st w.1 p1) w.2 p2)

/-- `for w in walls: align_edge_to_vector(w, forward)`. -/
def alignAll (target : Vec3) : List WallE → List Vec3 → Option (List Vec3)
  | [], st => some st
  | w :: rest, st =>
    match alignWall target st w with
    | none => none
    | some st2 => alignAll target rest st2

/-- `move_to(wall, goal)` (source lines 539–546): translate both endpoints by
`goal - wall_center`, sequentially as the source's `for v in wall.verts` does. -/
def move_to (st : List Vec3) (w : WallE) (goal : Vec3) : List Vec3 :=
  let mv := goal - edgeCenter st w
  let st1 := wr st w.1 (rd st w.1 + mv)
  wr st1 w.2 (rd st1 w.2 + mv)

/-- `move_vertically(wall, goal)` (source lines 548–550): move to the current
center's x and y with the requested z. -/
def move_vertically (st : List Vec3) (w : WallE) (goal : ℚ) : List Vec3 :=
  let c := edgeCenter st w
  move_to st w ⟨c.x, c.y, goal⟩

/-- The sort key order of `sort_vertically` (source lines 513–514): ascending
lexicographic in `(edge_avg_z e, distance_to_center e)` where
`distance_to_center e = -(top_center - center e).length`.  The model compares
the squared distance (`sqrt` is strictly monotone on nonnegatives, so the
order is the same relation the source's float keys induce). -/
def sortKeyLe (st : List Vec3) (top_center : Vec3) (e1 e2 : WallE) : Prop :=
  (edgeCenter st e1).z < (edgeCenter st e2).z ∨
    ((edgeCenter st e1).z = (edgeCenter st e2).z ∧
      (top_center - edgeCenter st e2).normSq ≤ (top_center - edgeCenter st e1).normSq)

instance (st : List Vec3) (tc : Vec3) : DecidableRel (sortKeyLe st tc) := fun a b => by
  unfold sortKeyLe; infer_instance

/-- `sort_vertically(walls)`: Python's `sorted` is a stable sort by the key
above; a stable sort with respect to a total preorder is unique, so insertion
sort by the same relation returns exactly the source's list. -/
def sort_vertically (st : List Vec3) (top_center : Vec3) (walls : List WallE) : List WallE :=
  List.insertionSort (sortKeyLe st top_center) walls

/-- The `end_of_straight, *curve = sorted_walls` decomposition: for more than
one wall the walls are sorted first; for a single wall `end_of_straight` is
`walls[0]` and `curve` is empty. -/
def sortedWalls (st : List Vec3) (top_center : Vec3) (walls : List WallE) : List WallE :=
  if 1 < walls.length then sort_vertically st top_center walls else walls

/-- The `for w in curve:` loop of `space_vertically` (source lines 566–572):
wall `i` (1-based) moves to `curve_start_height + (i/steps) * curve_height`;
the easing call is commented out in the source, so the fraction is linear. -/
def curveMovesV (cs ch : ℚ) (steps : Nat) : List Vec3 → List WallE → Nat → List Vec3
  | st, [], _ => st
  | st, w :: rest, i =>
    curveMovesV cs ch steps (move_vertically st w (cs + ((i : ℚ) / (steps : ℚ)) * ch)) rest (i + 1)

/-- `space_vertically(walls)` (source lines 552–572): no-op on an empty list;
otherwise align every wall to `forward`, sort (when more than one), snap the
first sorted wall to `min_z + height * start_fraction`, and distribute the
rest linearly up to `max_z`.  `Option`-valued because the alignment's
normalisations are (the geometry is untouched in the `none` case, which the
float source never takes). -/
def space_vertically (forward top_center : Vec3) (min_z max_z sf : ℚ)
    (walls : List WallE) (st : List Vec3) : Option (List Vec3) :=
  if walls = [] then some st
  else
    match alignAll forward walls st with
    | none => none
    | some st1 =>
      let sw := sortedWalls st1 top_center walls
      let eos := sw.headD (0, 0)
      let curve := sw.tail
      let cs := min_z + (max_z - min_z) * sf
      let st2 := move_vertically st1 eos cs
      some (curveMovesV cs (max_z - cs) (curve.length + 1) st2 curve 1)

/-- The `for w in curve:` loop of `space_horizontally` (source lines 603–608):
wall `i` moves to the eased lateral position at its current height. -/
def curveMovesH (minp : Vec3) (dist : ℚ) (direction : Vec3) (si so : ℚ) (steps : Nat) :
    List Vec3 → List WallE → Nat → List Vec3
  | st, [], _ => st
  | st, w :: rest, i =>
    let fr := fast_in_out_bezier ((i : ℚ) / (steps : ℚ)) si so
    let xypos := minp + Vec3.smul (fr * dist) direction
    let hz := (edgeCenter st w).z
    curveMovesH minp dist direction si so steps (move_to st w ⟨xypos.x, xypos.y, hz⟩) rest (i + 1)

/-- `space_horizontally(walls, direction)` (source lines 578–607): no-op on an
empty list; otherwise sort (when more than one), leave the lowest wall alone,
and place the rest at eased fractions of the planar distance between the
lowest wall's center and the top edge's center, preserving each wall's current
height.  `Option`-valued because the planar distance is a square root. -/
def space_horizontally (top_edge : WallE) (top_center : Vec3) (si so : ℚ)
    (direction : Vec3) (walls : List WallE) (st : List Vec3) : Option (List Vec3) :=
  if walls = [] then some st
  else
    let sw := sortedWalls st top_center walls
    let eos := sw.headD (0, 0)
    let curve := sw.tail
    let minp0 := edgeCenter st eos
    let maxp0 := edgeCenter st top_edge
    let minp : Vec3 := ⟨minp0.x, minp0.y, 0⟩
    let maxp : Vec3 := ⟨maxp0.x, maxp0.y, 0⟩
    match ratSqrtOpt (maxp - minp).normSq with
    | none => none
    | some dist => some (curveMovesH minp dist direction si so (curve.length + 1) st curve 1)

/-- Well-formedness of a wall edge relative to the store: two distinct
vertices, both in range (bmesh edges always have two distinct vertices). -/
abbrev wallOk (st : List Vec3) (w : WallE) : Prop :=
  w.1 ≠ w.2 ∧ w.1 < st.length ∧ w.2 < st.length

/-- Two wall edges share no vertex (parallel cross-sections of a strip). -/
abbrev wallDisj (w v : WallE) : Prop :=
  w.1 ≠ v.1 ∧ w.1 ≠ v.2 ∧ w.2 ≠ v.1 ∧ w.2 ≠ v.2

/-- One wall along the x axis (already parallel to `forward = (1,0,0)`). -/
def spacerWallsV : List WallE := [(0, 1)]

/-- Store for the vertical-spacing witness. -/
def spacerStV : List Vec3 := [⟨0, 0, 0⟩, ⟨1, 0, 0⟩]

/-- Result of vertical spacing on `spacerStV` (wall snapped to z = 1/2). -/
def spacerResV : List Vec3 := [⟨0, 0, 1/2⟩, ⟨1, 0, 1/2⟩]

/-- Two stacked walls for the horizontal-spacing witness. -/
def spacerWallsH : List WallE := [(0, 1), (2, 3)]

/-- Store for the horizontal-spacing witness; vertices 4 and 5 form the top
edge. -/
def spacerStH : List Vec3 :=
  [⟨0, 0, 0⟩, ⟨1, 0, 0⟩, ⟨0, 0, 1⟩, ⟨1, 0, 1⟩, ⟨0, 2, 2⟩, ⟨1, 2, 2⟩]

/-- Result of horizontal spacing on `spacerStH`: the upper wall moved
laterally, all heights kept. -/
def spacerResH : List Vec3 :=
  [⟨0, 0, 0⟩, ⟨1, 0, 0⟩, ⟨0, 1/4, 1⟩, ⟨1, 1/4, 1⟩, ⟨0, 2, 2⟩, ⟨1, 2, 2⟩]

/-- Two disjoint walls for the placement witness. -/
def placeWalls : List WallE := [(0, 1), (2, 3)]

/-- Store for the placement witness (walls already parallel to forward). -/
def placeSt : List Vec3 := [⟨0, 0, 0⟩, ⟨1, 0, 0⟩, ⟨0, 0, 1⟩, ⟨1, 0, 1⟩]

/-- Result: with `min_z = 0`, `max_z = 2`, `start_fraction = 1/2`, the lower
wall snaps to z = 1 and the remaining wall to z = 3/2. -/
def placeRes : List Vec3 := [⟨0, 0, 1⟩, ⟨1, 0, 1⟩, ⟨0, 0, 3/2⟩, ⟨1, 0, 3/2⟩]

/-- The editable mesh of `add_edge_loop_cone.py`: vertices carry an id, a
position and a selection flag; edges are vertex-id pairs; faces are cyclic
vertex-id lists with a selection flag.  `nextV` is the id the next
`bm.verts.new` will allocate. -/
structure CMesh where
  nextV : Nat
  verts : List (Nat × Vec3 × Bool)
  edges : List (Nat × Nat)
  faces : List (List Nat × Bool)
deriving DecidableEq

/-- Position of vertex `i` (`v.co`). -/
def cvco (m : CMesh) (i : Nat) : Vec3 :=
  ((m.verts.find? (fun v => v.1 = i)).map (fun v => v.2.1)).getD Vec3.zero

/-- `v.link_edges` in the model's deterministic edge-list order. -/
def linkEdges (m : CMesh) (v : Nat) : List (Nat × Nat) :=
  m.edges.filter (fun e => e.1 = v || e.2 = v)

/-- The first edge of `bv.link_edges` having the apex among its vertices
(source lines 100–104 and 123–127). -/
def spikeEdgeFor (m : CMesh) (apex bv : Nat) : Option (Nat × Nat) :=
  (linkEdges m bv).find? (fun e => e.1 = apex || e.2 = apex)

/-- Whether the unordered pair `(a, b)` is an edge of the face with vertex
cycle `fv` (consecutive, cyclically). -/
def faceUsesEdge (fv : List Nat) (a b : Nat) : Bool :=
  (List.range fv.length).any (fun i =>
    let u := fv.getD i 0
    let w := fv.getD ((i + 1) % fv.length) 0
    (u = a && w = b) || (u = b && w = a))

/-- `bm.edges.remove(e)`: removes the edge and every face incident to it. -/
def removeEdge (m : CMesh) (e : Nat × Nat) : CMesh :=
  { m with
    edges := m.edges.filter
      (fun d => !((d.1 = e.1 && d.2 = e.2) || (d.1 = e.2 && d.2 = e.1)))
    faces := m.faces.filter (fun f => !faceUsesEdge f.1 e.1 e.2) }

/-- Two vertex lists describe the same vertex set (faces here have no repeated
vertices). -/
def sameVerts (l1 l2 : List Nat) : Bool :=
  l1.length = l2.length && l1.all (fun v => l2.elem v)

/-- `bm.faces.new` creates the edges of the face that do not exist yet. -/
def addMissingEdges (vs : List Nat) (edges : List (Nat × Nat)) : List (Nat × Nat) :=
  (List.range vs.length).foldl
    (fun es i =>
      let a := vs.getD i 0
      let b := vs.getD ((i + 1) % vs.length) 0
      if es.any (fun e => (e.1 = a && e.2 = b) || (e.1 = b && e.2 = a)) then es
      else es ++ [(a, b)])
    edges

/-- `try: bm.faces.new(vs) except: pass`: a duplicate face (the failure mode
arising in this operator) is skipped, otherwise the face is created unselected
together with its missing edges. -/
def tryFaceNew (m : CMesh) (vs : List Nat) : CMesh :=
  if m.faces.any (fun f => sameVerts f.1 vs) then m
  else { m with edges := addMissingEdges vs m.edges, faces := m.faces ++ [(vs, false)] }

/-- Sum of a list of vectors (`sum(…, Vector())`). -/
def vsum (l : List Vec3) : Vec3 := l.foldl (· + ·) Vec3.zero

/-- A rational pseudo-angle, order-isomorphic to `atan2 y x` on `(-π, π]`:
mapping `(x, y)` to a value in `(-2, 2]` that is strictly increasing in the
angle.  The source sorts by the `atan2` key; sorting by any strictly monotone
image of the key is the same stable sort, so the model's sorted order equals
the source's. -/
def pseudoAngle (x y : ℚ) : ℚ :=
  if x = 0 ∧ y = 0 then 0
  else
    let s := y / (|x| + |y|)
    if 0 ≤ x then s
    else if 0 ≤ y then 2 - s
    else -2 - s

/-- The border-vertex sort key `angle_from_apex` (source lines 85–92), with
`atan2` replaced by the order-isomorphic pseudo-angle: project the vector from
the apex onto the plane perpendicular to `main_direction` and take the angle
of its coordinates along `ref_vec_projected` (x) and `perp_ref` (y). -/
def angle_from_apex (m : CMesh) (apex : Nat) (md refp perpRef : Vec3) (v : Nat) : ℚ :=
  let vec := cvco m v - cvco m apex
  let proj := vec - Vec3.smul (vec.dot md) md
  pseudoAngle (proj.dot refp) (proj.dot perpRef)

/-- Border vertices collected from the fan faces: the source builds a Python
set in a nested loop and then lists it; the model determinizes to
first-insertion order (the scenario claim's observables do not depend on the
order). -/
def collectBorder (apex : Nat) : List (List Nat) → List Nat → List Nat
  | [], acc => acc
  | f :: rest, acc =>
    collectBorder apex rest
      (f.foldl (fun a v => if v ≠ apex ∧ ¬ a.elem v then a ++ [v] else a) acc)

/-- Cancellation messages of `MESH_OT_AddEdgeLoopToCone.execute`. -/
inductive CMsg where
  /-- `"Active object must be a mesh"` -/
  | activeObjectMustBeMesh : CMsg
  /-- `"Please select exactly one vertex as the apex."` -/
  | selectExactlyOneVertex : CMsg
  /-- `"No faces found that share the apex."` -/
  | noFacesShareApex : CMsg
  /-- `"Not enough border vertices found."` -/
  | notEnoughBorderVerts : CMsg
  /-- `"Could not find a spike edge for a border vertex."` -/
  | noSpikeEdge : CMsg
deriving DecidableEq

/-- `for f in bm.faces: f.select = False`. -/
def deselAllFaces (m : CMesh) : CMesh :=
  { m with faces := m.faces.map (fun f => (f.1, false)) }

/-- Select exactly the faces having a vertex in `ml` (source lines 162–165). -/
def selFacesTouching (ml : List Nat) (m : CMesh) : CMesh :=
  { m with faces := m.faces.map (fun f => (f.1, f.1.any (fun v => ml.elem v))) }

/-- `apex.select = True`. -/
def selVert (apex : Nat) (m : CMesh) : CMesh :=
  { m with verts := m.verts.map (fun v => if v.1 = apex then (v.1, v.2.1, true) else v) }

/-- Result of the cone operator: `CANCELLED` with its report message, or
`FINISHED` with the final mesh. -/
inductive COutcome where
  | cancelled : CMsg → COutcome
  | finished : CMesh → COutcome
deriving DecidableEq

/-- The middle-vertex creation loop (source lines 96–111): for each border
vertex in sorted order, find its spike edge (cancelling when there is none)
and create an unselected vertex at `apex.co.lerp(bv.co, fraction)`; returns
the grown mesh and the `middle_verts` association. -/
def mkMiddles (apexCo : Vec3) (frac : ℚ) (apex : Nat) :
    List Nat → CMesh → List (Nat × Nat) → Except CMsg (CMesh × List (Nat × Nat))
  | [], m, acc => .ok (m, acc)
  | bv :: rest, m, acc =>
    match spikeEdgeFor m apex bv with
    | none => .error .noSpikeEdge
    | some _ =>
      let co := apexCo + Vec3.smul frac (cvco m bv - apexCo)
      let m2 := { m with nextV := m.nextV + 1, verts := m.verts ++ [(m.nextV, co, false)] }
      mkMiddles apexCo frac apex rest m2 (acc ++ [(bv, m.nextV)])

/-- `MESH_OT_AddEdgeLoopToCone.execute` (source lines 32–179).  `Option`-valued
because the two normalisations (`main_direction`, `ref_vec_projected`) are;
`bpy.ops.mesh.normals_make_consistent` is a host command that recomputes face
winding only — it changes no vertex position, no topology and no selection
flag, so it is a no-op on this abstraction. -/
def cone_execute (active : Bool) (frac : ℚ) (m : CMesh) : Option COutcome :=
  if !active then some (.cancelled .activeObjectMustBeMesh)
  else
    match m.verts.filter (fun v => v.2.2) with
    | [apexV] =>
      let apex := apexV.1
      let apexCo := apexV.2.1
      let fanFaces := (m.faces.filter (fun f => f.1.elem apex)).map (fun f => f.1)
      if fanFaces = [] then some (.cancelled .noFacesShareApex)
      else
        let border := collectBorder apex fanFaces []
        if border.length < 2 then some (.cancelled .notEnoughBorderVerts)
        else
          let bc := Vec3.smul (1 / (border.length : ℚ)) (vsum (border.map (cvco m)))
          match vnormalize (bc - apexCo) with
          | none => none
          | some md =>
            let refVec := cvco m (border.headD 0) - apexCo
            match vnormalize (refVec - Vec3.smul (refVec.dot md) md) with
            | none => none
            | some refp =>
              let perpRef := Vec3.cross md refp
              let sb := List.insertionSort
                (fun a b => angle_from_apex m apex md refp perpRef a ≤
                  angle_from_apex m apex md refp perpRef b) border
              match mkMiddles apexCo frac apex sb m [] with
              | .error msg => some (.cancelled msg)
              | .ok (m1, mids) =>
                let ml := sb.map (fun bv => ((mids.find? (fun p => p.1 = bv)).map (·.2)).getD 0)
                let spikes := sb.filterMap (fun bv => spikeEdgeFor m1 apex bv)
                let m2 := spikes.foldl removeEdge m1
                let n := ml.length
                let m3 : CMesh := (List.range n).foldl
                  (fun mm i => tryFaceNew mm [apex, ml.getD i 0, ml.getD ((i + 1) % n) 0]) m2
                let m4 : CMesh := (List.range n).foldl
                  (fun mm i => tryFaceNew mm
                    [ml.getD i 0, sb.getD i 0, sb.getD ((i + 1) % n) 0, ml.getD ((i + 1) % n) 0]) m3
                let m5 := deselAllFaces m4
                let m6 := selFacesTouching ml m5
                let m7 := deselAllFaces m6
                let m8 := selVert apex m7
                some (.finished m8)
    | _ => some (.cancelled .selectExactlyOneVertex)

/-- The 6-triangle fan of the scenario in claim C9: apex vertex 0 at
`(0, 0, 1)` (the only selected vertex), border vertices 1–6 on the plane
`z = 0` with centroid at the origin and pairwise distinct angular positions,
six spike edges, six border-ring edges, and six triangles `(apex, bᵢ, bᵢ₊₁)`
around the ring. -/
def fanM6 : CMesh :=
  { nextV := 7
    verts := [(0, ⟨0, 0, 1⟩, true), (1, ⟨1, 0, 0⟩, false), (2, ⟨0, -1, 0⟩, false),
      (3, ⟨-1, -1, 0⟩, false), (4, ⟨-1, 0, 0⟩, false), (5, ⟨0, 1, 0⟩, false),
      (6, ⟨1, 1, 0⟩, false)]
    edges := [(0, 1), (0, 2), (0, 3), (0, 4), (0, 5), (0, 6),
      (1, 2), (2, 3), (3, 4), (4, 5), (5, 6), (6, 1)]
    faces := [([0, 1, 2], false), ([0, 2, 3], false), ([0, 3, 4], false),
      ([0, 4, 5], false), ([0, 5, 6], false), ([0, 6, 1], false)] }

/-- Running the cone operator on the scenario fan with `fraction = 0.5`. -/
def coneFanRun : Option COutcome := cone_execute true (1/2) fanM6

/-- The final mesh of a finished run, if any. -/
def finishedMesh : Option COutcome → Option CMesh
  | some (.finished m) => some m
  | _ => none

/-- A quad face 0 (edges 0,3,2,4) glued along edge 2 to a triangle face 1
(edges 2,5,6).  Walking from edge 0 enters face 1; a triangle has no opposite
edge, so `get_next_face` returns `None` mid-walk. -/
def walkCrashTopo : Topo :=
  { faces := [0, 1]
    fedges := fun f => if f = 0 then [0, 3, 2, 4] else if f = 1 then [2, 5, 6] else []
    efaces := fun e =>
      if e = 2 then [0, 1] else if e = 0 then [0] else if e = 3 then [0]
      else if e = 4 then [0] else if e = 5 then [1] else if e = 6 then [1] else []
    everts := fun e =>
      if e = 0 then [0, 1] else if e = 3 then [1, 2] else if e = 2 then [2, 3]
      else if e = 4 then [3, 0] else if e = 5 then [3, 4] else if e = 6 then [4, 2] else [] }

/-- The empty topology. -/
def emptyTopo : Topo := ⟨[], fun _ => [], fun _ => [], fun _ => []⟩

/-- A three-face strip where the walk's next face (12) touches the ending
boundary edge (30), exercising the graceful stop. -/
def stopTopo : Topo :=
  { faces := [10, 11, 12]
    fedges := fun f =>
      if f = 10 then [20, 21] else if f = 11 then [20] else if f = 12 then [30] else []
    efaces := fun e => if e = 21 then [10, 12] else []
    everts := fun e => if e = 20 then [1, 2] else if e = 21 then [3, 4] else [] }

/-- A region whose single face has edge 5 only, so no face contains the input
edges 0 and 1 of a loop cut. -/
def noCommonFaceTopo : Topo :=
  { faces := [0], fedges := fun _ => [5], efaces := fun _ => [], everts := fun _ => [] }

/-- A topology where the region face 0 contains both cut edges (10, 11) plus a
reference edge 12, and the cut's delta (face 2, edge 20) touches neither input
edge. -/
def lcNoTouchTopo : Topo :=
  { faces := [0, 2]
    fedges := fun f => if f = 0 then [10, 11, 12] else if f = 2 then [20] else []
    efaces := fun e => if e = 20 then [2] else []
    everts := fun _ => [] }

/-- A topology where the cut creates face 1 (touching the first input edge 10)
and edge 13, whose link faces all lie in the updated region. -/
def lcTouchTopo : Topo :=
  { faces := [0, 1]
    fedges := fun f => if f = 0 then [10, 11, 12] else if f = 1 then [10, 13] else []
    efaces := fun e => if e = 13 then [1, 0] else []
    everts := fun e => if e = 10 then [0, 1] else if e = 13 then [1, 3] else [] }

/-- A mesh with one selected face whose edge 0 is its only boundary edge
(one selected link face) while edge 1 has two selected link-face slots and the
top average z, so axis detection runs on a single boundary edge. -/
def oneBoundaryMesh : GMesh :=
  ⟨[⟨0, 0, 0⟩, ⟨1, 0, 0⟩, ⟨0, 0, 1⟩, ⟨1, 0, 1⟩], [(0, 1), (2, 3)], [[0], [0, 0]], [true]⟩

/-- The world driving claim C1's counterexample: active mesh, a selection, a
single boundary edge, a nonempty top-edge list. -/
def C1world : GWorld := ⟨true, oneBoundaryMesh⟩

/-- World failing the active-object check. -/
def noActiveWorld : GWorld := ⟨false, ⟨[], [], [], []⟩⟩

/-- World with an active mesh and no selected faces. -/
def noSelectionWorld : GWorld := ⟨true, ⟨[], [], [], []⟩⟩

/-- World with a selected face but no edges at all, hence no boundary edges. -/
def noBoundaryWorld : GWorld := ⟨true, ⟨[], [], [], [true]⟩⟩

/-- The mesh for claim C5's witness (same shape as `oneBoundaryMesh`). -/
def C5mesh : GMesh :=
  ⟨[⟨0, 0, 0⟩, ⟨1, 0, 0⟩, ⟨0, 0, 1⟩, ⟨1, 0, 1⟩], [(0, 1), (2, 3)], [[0], [0, 0]], [true]⟩

/-- World where the only maximal-z selected edge is a boundary edge, so
`top_edges` is empty: edge 0 (boundary) has average z 1, edge 1 average z 0. -/
def C10world : GWorld :=
  ⟨true, ⟨[⟨0, 0, 1⟩, ⟨1, 0, 1⟩, ⟨0, 0, 0⟩, ⟨1, 0, 0⟩], [(0, 1), (2, 3)], [[0], [0, 0]], [true]⟩⟩

/-- The final mesh of the scenario run (the run does finish; see the C9
theorems). -/
def coneFanMesh : CMesh := (finishedMesh coneFanRun).getD ⟨0, [], [], []⟩

/-- Claim C8: for every pair of sharpness values in the clamped range
`[-2, 2]`, the easing function is pinned at its endpoints:
`fast_in_out_bezier 0 si so = 0` and `fast_in_out_bezier 1 si so = 1`. -/
theorem C8_endpoint_pinning (si so : ℚ) (hi1 : -2 ≤ si) (hi2 : si ≤ 2)
    (ho1 : -2 ≤ so) (ho2 : so ≤ 2) :
    fast_in_out_bezier 0 si so = 0 ∧ fast_in_out_bezier 1 si so = 1 := by
  constructor <;>
    simp [fast_in_out_bezier, bezier_curve] <;> ring

/-- Witness for C8 at the source's default sharpness `0.5`. -/
theorem C8_endpoint_pinning_witness :
    fast_in_out_bezier 0 (1/2) (1/2) = 0 ∧ fast_in_out_bezier 1 (1/2) (1/2) = 1 :=
  C8_endpoint_pinning (1/2) (1/2) (by norm_num) (by norm_num) (by norm_num) (by norm_num)

/-- Membership in a Python-set `add`. -/
theorem sadd_mem (s : List Nat) (d e : Nat) : e ∈ sadd s d ↔ e ∈ s ∨ e = d := by
  unfold sadd
  by_cases h : s.elem d <;> simp_all [List.elem_iff]

/-- Reading the store after a write: the written value inside bounds at the
written id, the old value everywhere else. -/
theorem rd_wr (st : List Vec3) (i j : Nat) (v : Vec3) :
    rd (wr st i v) j = if i = j ∧ i < st.length then v else rd st j := by
  unfold rd wr
  by_cases h1 : i = j
  · subst h1
    by_cases h2 : i < st.length
    · simp [List.getD, List.getElem?_set_self, h2]
    · simp [List.getD, List.set_eq_of_length_le (Nat.le_of_not_lt h2), h2]
  · simp [List.getD, List.getElem?_set_ne h1, h1]

/-- Membership in the boundary component of the classification fold. -/
theorem classify_fold_mem (m : GMesh) (L : List Nat) (acc : List Nat × List Nat) (e : Nat) :
    (e ∈ (L.foldl (fun acc e =>
        let c := linkedSelCount m e
        if 0 < c then (sadd acc.1 e, if c ≠ 2 then sadd acc.2 e else acc.2) else acc) acc).2 ↔
      e ∈ acc.2 ∨ (e ∈ L ∧ 0 < linkedSelCount m e ∧ linkedSelCount m e ≠ 2)) := by
  induction L generalizing acc with
  | nil => simp
  | cons a L ih =>
    simp only [List.foldl_cons, List.mem_cons]
    rw [ih]
    by_cases h1 : 0 < linkedSelCount m a <;> by_cases h2 : linkedSelCount m a ≠ 2 <;>
      simp [h1, h2, sadd_mem] <;> by_cases he : e = a <;> simp [he] <;> tauto

/-- Claim C5: in the classification step, an edge of the mesh incident to at
least one selected face is classified as a boundary edge iff the number of its
link faces lying in the selected face set differs from 2. -/
theorem C5_boundary_iff (m : GMesh) (e : Nat) (h1 : e < m.everts.length)
    (h2 : 0 < linkedSelCount m e) :
    e ∈ (classify m).2 ↔ linkedSelCount m e ≠ 2 := by
  unfold classify
  rw [classify_fold_mem]
  simp [List.mem_range, h1, h2]

/-- Witness for C5: in `C5mesh`, edge 0 touches one selected face and is
classified as a boundary edge. -/
theorem C5_boundary_iff_witness :
    0 < linkedSelCount C5mesh 0 ∧ linkedSelCount C5mesh 0 ≠ 2 ∧ 0 ∈ (classify C5mesh).2 :=
  ⟨by decide, by decide, (C5_boundary_iff C5mesh 0 (by decide) (by decide)).mpr (by decide)⟩

/-- Claim C10: when every selected edge within the 0.001 tolerance of the
maximal average z is a boundary edge (`top_edges` empty), the operator raises
an uncaught `IndexError` at `list(top_edges)[0]` instead of reporting a
validation error, leaving the mesh unmodified. -/
theorem C10_top_empty_indexError (w : GWorld) (h1 : w.activeMesh = true)
    (h2 : selectedFacesOf w.mesh ≠ []) (h3 : (classify w.mesh).2 ≠ [])
    (h4 : top_edgesOf w.mesh = []) :
    executePrecheck w = (.exc .indexError, w.mesh) := by
  simp [executePrecheck, h1, h2, h3, h4]

/-- Witness for C10 at `C10world`, whose only maximal-z selected edge is a
boundary edge. -/
theorem C10_top_empty_indexError_witness :
    top_edgesOf C10world.mesh = [] ∧
      executePrecheck C10world = (.exc .indexError, C10world.mesh) :=
  ⟨by decide, C10_top_empty_indexError C10world (by decide) (by decide) (by decide) (by decide)⟩

/-- Counterexample to claim C1: in `C1world` the boundary-edge set has exactly
one edge, `find_perpendicular_vector` yields no vector, and the operator ends
in an uncaught `AttributeError` (the `None` axis is dereferenced at
`Vector((-forward.y, forward.x, 0))`), not in a reported "no axis found"
cancellation — no such check exists in the source. -/
theorem C1_counterexample :
    find_perpendicular_vector C1world.mesh (classify C1world.mesh).2 = none ∧
      executePrecheck C1world = (.exc .attributeError, C1world.mesh) := by decide

/-- Claim C1 (amended): the three existing precondition checks — no active
mesh object, no faces selected, no boundary edges — are each reported and the
operation cancelled with the mesh unmodified; but when axis detection yields
no vector (for example on a single boundary edge) the operator raises an
uncaught `AttributeError` instead of reporting a "no axis found" error (the
geometry is still unmodified at that point, the failure is an exception, not a
cancellation). -/
theorem C1_precondition_amended :
    (∀ w : GWorld, w.activeMesh = false →
      executePrecheck w = (.cancelled .activeObjectMustBeMesh, w.mesh)) ∧
    (∀ w : GWorld, w.activeMesh = true → selectedFacesOf w.mesh = [] →
      executePrecheck w = (.cancelled .noFacesSelected, w.mesh)) ∧
    (∀ w : GWorld, w.activeMesh = true → selectedFacesOf w.mesh ≠ [] →
      (classify w.mesh).2 = [] →
      executePrecheck w = (.cancelled .noBoundaryEdgesFound, w.mesh)) ∧
    (∀ w : GWorld, w.activeMesh = true → selectedFacesOf w.mesh ≠ [] →
      (classify w.mesh).2 ≠ [] → top_edgesOf w.mesh ≠ [] →
      find_perpendicular_vector w.mesh (classify w.mesh).2 = none →
      executePrecheck w = (.exc .attributeError, w.mesh)) := by
  refine ⟨fun w h1 => ?_, fun w h1 h2 => ?_, fun w h1 h2 h3 => ?_, fun w h1 h2 h3 h4 h5 => ?_⟩ <;>
    unfold executePrecheck
  · simp [h1]
  · simp [h1, h2]
  · simp [h1, h2, h3]
  · rw [h1]
    simp only [Bool.not_true, Bool.false_eq_true, if_false, h2, if_false, h3, if_false]
    obtain ⟨a, L, hL⟩ := List.exists_cons_of_ne_nil h4
    rw [hL]
    simp [h5]

/-- Witness for the amended C1, exercising all four branches on concrete
worlds. -/
theorem C1_precondition_amended_witness :
    executePrecheck noActiveWorld = (.cancelled .activeObjectMustBeMesh, noActiveWorld.mesh) ∧
    executePrecheck noSelectionWorld = (.cancelled .noFacesSelected, noSelectionWorld.mesh) ∧
    executePrecheck noBoundaryWorld = (.cancelled .noBoundaryEdgesFound, noBoundaryWorld.mesh) ∧
    executePrecheck C1world = (.exc .attributeError, C1world.mesh) :=
  ⟨C1_precondition_amended.1 noActiveWorld (by decide),
    C1_precondition_amended.2.1 noSelectionWorld (by decide) (by decide),
    C1_precondition_amended.2.2.1 noBoundaryWorld (by decide) (by decide) (by decide),
    C1_precondition_amended.2.2.2 C1world (by decide) (by decide) (by decide) (by decide)
      (by decide)⟩

/-- `get_opposite_face` can only fail with `IndexError`. -/
theorem gof_error (t : Topo) (f b : Nat) (e : PyErr)
    (h : get_opposite_face t f b = .error e) : e = .indexError := by
  unfold get_opposite_face at h
  split at h
  · exact absurd h (by simp)
  · split at h
    · simpa using (Except.error.inj h).symm
    · exact absurd h (by simp)

/-- A face returned by `get_opposite_face` is a link face of some edge and
differs from the face walked from. -/
theorem gof_ok_some (t : Topo) (f b g : Nat)
    (h : get_opposite_face t f b = .ok (some g)) : (∃ e, g ∈ t.efaces e) ∧ g ≠ f := by
  unfold get_opposite_face at h
  split at h
  · simp at h
  · rename_i e he
    split at h
    · simp at h
    · rename_i g2 L hL
      have hg : g2 = g := by simpa using h
      subst hg
      have hmem : g2 ∈ (t.efaces e).filter (fun x => x ≠ f) := by
        rw [hL]; exact List.mem_cons_self _ _
      have := List.mem_filter.mp hmem
      exact ⟨⟨e, this.1⟩, by simpa using this.2⟩

/-- `get_next_face` can only fail with `IndexError`. -/
theorem gnf_error (t : Topo) (f p : Nat) (e : PyErr)
    (h : get_next_face t f p = .error e) : e = .indexError := by
  unfold get_next_face at h
  split at h
  · exact gof_error _ _ _ _ h
  · simp at h

/-- A face returned by `get_next_face` is a link face of some edge and differs
from the face walked from. -/
theorem gnf_ok_some (t : Topo) (f p g : Nat)
    (h : get_next_face t f p = .ok (some g)) : (∃ e, g ∈ t.efaces e) ∧ g ≠ f := by
  unfold get_next_face at h
  split at h
  · exact gof_ok_some _ _ _ _ h
  · simp at h

/-- A duplicate-free list included in another list is no longer than it. -/
theorem nodup_subset_length {l L : List Nat} (hd : l.Nodup) (hs : ∀ x ∈ l, x ∈ L) :
    l.length ≤ L.length := by
  calc l.length = l.toFinset.card := (List.toFinset_card_of_nodup hd).symm
    _ ≤ L.toFinset.card := Finset.card_le_card (fun x hx => by
        simp only [List.mem_toFinset] at hx ⊢; exact hs x hx)
    _ ≤ L.length := List.toFinset_card_le L

/-- The walk cannot exhaust its fuel while it still has it in reserve: every
iteration appends a face not yet collected, all collected faces come from the
face universe, so the loop runs at most `t.faces.length` times. -/
theorem walkLoop_ne_fuelOut (t : Topo) (ending : Nat) (old : List Nat)
    (hF : ∀ e f, f ∈ t.efaces e → f ∈ t.faces) :
    ∀ (fuel : Nat) (fb : List Nat) (f : Nat), fb.Nodup → (∀ x ∈ fb, x ∈ t.faces) →
      f ∈ t.faces → f ∉ fb → t.faces.length ≤ fuel + fb.length →
      walkLoop t ending old fuel fb (some f) ≠ .error .fuelOut := by
  intro fuel
  induction fuel with
  | zero =>
    intro fb f hd hsub hf hnf hlen
    exfalso
    have hd2 : (fb ++ [f]).Nodup := by
      simp [List.nodup_append, hd, hnf]
    have hsub2 : ∀ x ∈ fb ++ [f], x ∈ t.faces := by
      intro x hx
      rcases List.mem_append.mp hx with h | h
      · exact hsub x h
      · simp at h; exact h ▸ hf
    have := nodup_subset_length hd2 hsub2
    simp at this
    omega
  | succ fuel ih =>
    intro fb f hd hsub hf hnf hlen
    show walkLoop t ending old (fuel + 1) fb (some f) ≠ .error .fuelOut
    unfold walkLoop
    split
    · rename_i e he
      intro hcon
      have he2 : e = PyErr.fuelOut := by simpa using hcon
      have := gnf_error t f _ _ he
      simp [he2] at this
    · simp
    · rename_i g hg
      have hgm := gnf_ok_some t f _ g hg
      by_cases h1 : face_touches t g ending = true
      · simp [h1]
      · by_cases h2 : g ∈ fb ++ [f]
        · simp [h1, h2]
        · by_cases h3 : g ∈ old
          · simp [h1, h2, h3]
          · simp only [h1, h2, h3, if_false]
            refine ih (fb ++ [f]) g ?_ ?_ ?_ h2 ?_
            · simp [List.nodup_append, hd, hnf]
            · intro x hx
              rcases List.mem_append.mp hx with h | h
              · exact hsub x h
              · simp at h; exact h ▸ hf
            · obtain ⟨⟨e, hge⟩, _⟩ := hgm
              exact hF e g hge
            · simp
              omega

/-- Claim C4 (amended): on well-formed topology (link faces lie in the face
universe, the cut's new faces do too) the region walk always terminates — the
fuel bound of the embedding is never reached; and whenever the computed next
face exists and touches the other boundary edge, or was already walked, or
predates the cut, the walk returns the faces collected so far.  (Mid-walk
exhaustion — no next face — instead raises an exception; see the
counterexample.) -/
theorem C4_walk_amended :
    (∀ (t : Topo) (first second : Nat) (newF oldF : List Nat),
      (∀ e f, f ∈ t.efaces e → f ∈ t.faces) → (∀ f ∈ newF, f ∈ t.faces) →
      get_window_faces_between t first second newF oldF ≠ .error .fuelOut) ∧
    (∀ (t : Topo) (ending : Nat) (old : List Nat) (fuel : Nat) (fb : List Nat) (f g : Nat),
      get_next_face t f (fb.getLastD 0) = .ok (some g) →
      (face_touches t g ending = true ∨ g ∈ fb ++ [f] ∨ g ∈ old) →
      walkLoop t ending old (fuel + 1) fb (some f) = .ok (fb ++ [f])) := by
  constructor
  · intro t first second newF oldF hF hNew
    unfold get_window_faces_between
    have main : ∀ (starting ending : Nat) (sf : Nat), sf ∈ newF →
        (match get_opposite_face t sf starting with
          | .error e => Except.error e
          | .ok none => .ok [sf]
          | .ok (some nf) =>
            walkLoop t ending oldF (t.faces.length + 1) [sf] (some nf)) ≠
          Except.error PyErr.fuelOut := by
      intro starting ending sf hsf
      split
      · rename_i e he
        intro hcon
        have : e = PyErr.fuelOut := by simpa using hcon
        have := gof_error t sf starting e he
        simp_all
      · simp
      · rename_i nf hnf
        have hm := gof_ok_some t sf starting nf hnf
        refine walkLoop_ne_fuelOut t ending oldF hF _ [sf] nf (by simp) ?_ ?_ ?_ ?_
        · intro x hx; simp at hx; exact hx ▸ hNew sf hsf
        · obtain ⟨⟨e, hne⟩, _⟩ := hm
          exact hF e nf hne
        · simp [hm.2]
        · simp
          omega
    split
    · rename_i sf L hL
      exact main first second sf (List.mem_of_mem_filter (hL ▸ List.mem_cons_self _ _))
    · split
      · rename_i sf L hL
        exact main second first sf (List.mem_of_mem_filter (hL ▸ List.mem_cons_self _ _))
      · simp
  · intro t ending old fuel fb f g hg hstop
    unfold walkLoop
    rw [hg]
    rcases hstop with h | h | h
    · simp [h]
    · by_cases h1 : face_touches t g ending = true <;> simp [h1, h]
    · by_cases h1 : face_touches t g ending = true
      · simp [h1]
      · by_cases h2 : g ∈ fb ++ [f] <;> simp [h1, h2, h]

/-- Counterexample to claim C4: on `walkCrashTopo` the walk enters a face with
no opposite edge, `get_next_face` yields `None`, and the source evaluates
`face_touches(None, ending_boundary)` — an uncaught `AttributeError`, not a
graceful end of walk. -/
theorem C4_counterexample :
    get_window_faces_between walkCrashTopo 0 1 [0, 1] [] = .error .attributeError := by decide

/-- Witness for the amended C4: the termination bound on a concrete topology,
and a concrete one-step graceful stop. -/
theorem C4_walk_amended_witness :
    get_window_faces_between emptyTopo 0 1 [] [] ≠ .error .fuelOut ∧
      walkLoop stopTopo 30 [] 1 [11] (some 10) = .ok [11, 10] :=
  ⟨C4_walk_amended.1 emptyTopo 0 1 [] [] (by simp [emptyTopo]) (by simp),
    C4_walk_amended.2 stopTopo 30 [] 0 [11] 10 12 (by decide) (Or.inl (by decide))⟩

/-- The new-edge classification loop leaves all four collections unchanged
when no new edge has a link face in the region's face list. -/
theorem cne_skip (t : Topo) (faces1 : List Nat) (L : List Nat)
    (al bd ed nwe : List Nat)
    (h : ∀ e ∈ L, (t.efaces e).any (fun f => faces1.elem f) = false) :
    classifyNewEdges t faces1 L al bd ed nwe = (al, bd, ed, nwe) := by
  induction L with
  | nil => rfl
  | cons a L ih =>
    unfold classifyNewEdges
    rw [h a (List.mem_cons_self _ _)]
    simp only [Bool.false_eq_true, if_false]
    exact ih (fun e he => h e (List.mem_cons_of_mem _ he))

/-- Claim C3 (amended): when a region face contains both input edges (and has
a reference edge besides them) but no newly created face touches either input
edge, `loopcut_between` reports nothing created — the walk returns no faces,
the region's lists are unchanged (the new edges, whose link faces are all new
faces disjoint from the region, join nothing), and the returned collections
are empty; this is a recoverable no-op.  (When *no* face contains both input
edges the call instead raises an uncaught exception; see the
counterexample.) -/
theorem C3_loopcut_amended (t : Topo) (first second : Nat) (r : Region)
    (newFaces newEdges : List Nat) (fc : Nat)
    (hFound : (r.faces.filter
      (fun f => face_touches t f first && face_touches t f second)).getLast? = some fc)
    (hRef : (t.fedges fc).filter (fun e => e ≠ first && e ≠ second) ≠ [])
    (hTouch : ∀ f ∈ newFaces, face_touches t f first = false ∧ face_touches t f second = false)
    (hLink : ∀ e ∈ newEdges, ∀ g ∈ t.efaces e, g ∈ newFaces)
    (hDisj : ∀ g ∈ newFaces, g ∉ r.faces) :
    loopcut_between t first second r newFaces newEdges =
      .ok ⟨⟨r.faces, r.edges, r.boundary, r.allE⟩, [], []⟩ := by
  have h1 : newFaces.filter (fun f => face_touches t f first) = [] :=
    List.filter_eq_nil.mpr (fun f hf => by simp [(hTouch f hf).1])
  have h2 : newFaces.filter (fun f => face_touches t f second) = [] :=
    List.filter_eq_nil.mpr (fun f hf => by simp [(hTouch f hf).2])
  have hg : get_window_faces_between t first second newFaces newEdges = .ok [] := by
    unfold get_window_faces_between
    rw [h1, h2]
  have hskip := cne_skip t r.faces newEdges r.allE r.boundary r.edges []
    (fun e he => by
      rw [List.any_eq_false]
      intro g hg2
      have := hDisj g (hLink e he g hg2)
      simp [List.elem_iff, this])
  unfold loopcut_between
  simp only [hFound]
  split
  · rename_i hfil
    exact absurd hfil hRef
  · rw [hg]
    simp [hskip]

/-- Counterexample to claim C3: when no face of the region contains both input
edges, `face` stays `None` and `face.edges` raises an uncaught
`AttributeError` — a fatal failure, not a recoverable no-op. -/
theorem C3_counterexample :
    loopcut_between noCommonFaceTopo 0 1 ⟨[0], [], [], []⟩ [] [] =
      .error .attributeError := by decide

/-- Witness for the amended C3 on a concrete region whose cut delta touches
neither input edge. -/
theorem C3_loopcut_amended_witness :
    loopcut_between lcNoTouchTopo 10 11 ⟨[0], [5], [7], [8]⟩ [2] [20] =
      .ok ⟨⟨[0], [5], [7], [8]⟩, [], []⟩ :=
  C3_loopcut_amended lcNoTouchTopo 10 11 ⟨[0], [5], [7], [8]⟩ [2] [20] 0
    (by decide) (by decide) (by decide) (by decide) (by decide)

/-- Membership in the four collections produced by the new-edge classification
loop, as a function of the initial collections and the loop's conditions. -/
theorem cne_mem (t : Topo) (faces1 : List Nat) (L : List Nat)
    (al bd ed nwe : List Nat) (e : Nat) :
    (e ∈ (classifyNewEdges t faces1 L al bd ed nwe).1 ↔
      e ∈ al ∨ (e ∈ L ∧ (t.efaces e).any (fun f => faces1.elem f) = true)) ∧
    (e ∈ (classifyNewEdges t faces1 L al bd ed nwe).2.1 ↔
      e ∈ bd ∨ (e ∈ L ∧ (t.efaces e).any (fun f => faces1.elem f) = true ∧
        (t.efaces e).any (fun f => !faces1.elem f) = true)) ∧
    (e ∈ (classifyNewEdges t faces1 L al bd ed nwe).2.2.1 ↔
      e ∈ ed ∨ (e ∈ L ∧ (t.efaces e).any (fun f => faces1.elem f) = true ∧
        ¬ (t.efaces e).any (fun f => !faces1.elem f) = true)) ∧
    (e ∈ (classifyNewEdges t faces1 L al bd ed nwe).2.2.2 ↔
      e ∈ nwe ∨ (e ∈ L ∧ (t.efaces e).any (fun f => faces1.elem f) = true ∧
        ¬ (t.efaces e).any (fun f => !faces1.elem f) = true)) := by
  induction L generalizing al bd ed nwe with
  | nil => simp [classifyNewEdges]
  | cons a L ih =>
    unfold classifyNewEdges
    by_cases hA : (t.efaces a).any (fun f => faces1.elem f) = true <;>
      by_cases hB : (t.efaces a).any (fun f => !faces1.elem f) = true <;>
        simp only [hA, hB, Bool.false_eq_true, if_true, if_false, ih, sadd_mem,
          List.mem_append, List.mem_cons, List.mem_singleton] <;>
      by_cases he : e = a <;>
        [skip; tauto; skip; tauto; skip; tauto; skip; tauto] <;>
      subst he <;> tauto

/-- Claim C6: after a cut, every new edge with a link face among the newly
collected window faces joins the tracked edge set `all_edges`; it is marked a
boundary edge iff it also has a link face outside the updated region face
list; otherwise it is appended to the side's edge list and returned among the
new window edges. -/
theorem C6_new_edges (t : Topo) (first second : Nat) (r : Region)
    (newFaces newEdges : List Nat) (res : LCRes) (e : Nat)
    (hRun : loopcut_between t first second r newFaces newEdges = .ok res)
    (hE : e ∈ newEdges) (hFreshB : e ∉ r.boundary) (hFreshE : e ∉ r.edges)
    (hTouch : ∃ g ∈ t.efaces e, g ∈ res.newWindowFaces) :
    e ∈ res.region.allE ∧
      (e ∈ res.region.boundary ↔ ∃ g ∈ t.efaces e, g ∉ res.region.faces) ∧
      ((∀ g ∈ t.efaces e, g ∈ res.region.faces) →
        e ∈ res.region.edges ∧ e ∈ res.newWindowEdges) := by
  unfold loopcut_between at hRun
  split at hRun
  · exact absurd hRun (by simp)
  · split at hRun
    · exact absurd hRun (by simp)
    · split at hRun
      · exact absurd hRun (by simp)
      · rename_i nwf hnwf
        have hEq := Except.ok.inj hRun
        subst hEq
        simp only at hTouch ⊢
        have hmem := cne_mem t (r.faces ++ nwf) newEdges r.allE r.boundary r.edges [] e
        have hA : ((t.efaces e).any (fun f => (r.faces ++ nwf).elem f)) = true := by
          obtain ⟨g, hg1, hg2⟩ := hTouch
          rw [List.any_eq_true]
          exact ⟨g, hg1, by simp [List.elem_iff]; exact Or.inr hg2⟩
        have hBiff : ((t.efaces e).any (fun f => !(r.faces ++ nwf).elem f)) = true ↔
            ∃ g ∈ t.efaces e, g ∉ r.faces ++ nwf := by
          rw [List.any_eq_true]
          constructor
          · rintro ⟨g, hg1, hg2⟩
            exact ⟨g, hg1, by simpa [List.elem_iff] using hg2⟩
          · rintro ⟨g, hg1, hg2⟩
            exact ⟨g, hg1, by simpa [List.elem_iff] using hg2⟩
        refine ⟨?_, ?_, ?_⟩
        · exact hmem.1.mpr (Or.inr ⟨hE, hA⟩)
        · rw [hmem.2.1]
          simp only [hBiff]
          constructor
          · rintro (h | h)
            · exact absurd h hFreshB
            · exact h.2.2
          · intro h
            exact Or.inr ⟨hE, hA, h⟩
        · intro hall
          have hnB : ¬ ((t.efaces e).any (fun f => !(r.faces ++ nwf).elem f)) = true := by
            rw [hBiff]
            rintro ⟨g, hg1, hg2⟩
            exact hg2 (hall g hg1)
          constructor
          · exact hmem.2.2.1.mpr (Or.inr ⟨hE, hA, hnB⟩)
          · exact hmem.2.2.2.mpr (Or.inr ⟨hE, hA, hnB⟩)

/-- Witness for C6: a concrete cut on `lcTouchTopo` whose new edge 13 touches
the collected window face 1, links only region faces, and therefore becomes a
new wall edge. -/
theorem C6_new_edges_witness :
    loopcut_between lcTouchTopo 10 11 ⟨[0], [], [], []⟩ [1] [13] =
        .ok ⟨⟨[0, 1], [13], [], [13]⟩, [1], [13]⟩ ∧
      13 ∈ (LCRes.mk ⟨[0, 1], [13], [], [13]⟩ [1] [13]).region.allE ∧
      (13 ∈ (LCRes.mk ⟨[0, 1], [13], [], [13]⟩ [1] [13]).region.boundary ↔
        ∃ g ∈ lcTouchTopo.efaces 13,
          g ∉ (LCRes.mk ⟨[0, 1], [13], [], [13]⟩ [1] [13]).region.faces) ∧
      ((∀ g ∈ lcTouchTopo.efaces 13,
          g ∈ (LCRes.mk ⟨[0, 1], [13], [], [13]⟩ [1] [13]).region.faces) →
        13 ∈ (LCRes.mk ⟨[0, 1], [13], [], [13]⟩ [1] [13]).region.edges ∧
          13 ∈ (LCRes.mk ⟨[0, 1], [13], [], [13]⟩ [1] [13]).newWindowEdges) :=
  ⟨by decide,
    C6_new_edges lcTouchTopo 10 11 ⟨[0], [], [], []⟩ [1] [13]
      (LCRes.mk ⟨[0, 1], [13], [], [13]⟩ [1] [13]) 13
      (by decide) (by decide) (by decide) (by decide) ⟨1, by decide, by decide⟩⟩

/-- Counterexample to claim C9: the scenario run finishes, 12 faces touch the
middle loop (the vertices the run created, ids 7–12), yet the final selection
contains no face at all — the operator deselects every face and selects only
the apex vertex after recomputing normals (source lines 171–174), so the final
selection is not "the faces touching the middle loop". -/
theorem C9_counterexample :
    (finishedMesh coneFanRun).isSome = true ∧
      coneFanMesh.faces.filter (fun f => f.2) = [] ∧
      (coneFanMesh.faces.filter (fun f => f.1.any (fun v => 7 ≤ v && v ≤ 12))).length = 12 := by
  decide

/-- Claim C9 (amended): on the 6-triangle fan with `fraction = 0.5` the
operator finishes, creates exactly 6 middle vertices (ids 7–12), each at the
midpoint of its spike edge (apex lerped to the border vertex at 0.5), removes
the 6 original apex-to-border spike edges (and with them the 6 original
triangles), creates 6 new fan triangles through the apex and 6 new outer
quads; the faces touching the middle loop are selected only transiently: the
run ends with no face selected and exactly the apex vertex selected. -/
theorem C9_fan_amended :
    (finishedMesh coneFanRun).isSome = true ∧
      coneFanMesh.verts.length = 13 ∧
      cvco coneFanMesh 7 = ⟨0, 1/2, 1/2⟩ ∧
      cvco coneFanMesh 8 = ⟨1/2, 1/2, 1/2⟩ ∧
      cvco coneFanMesh 9 = ⟨1/2, 0, 1/2⟩ ∧
      cvco coneFanMesh 10 = ⟨0, -(1/2), 1/2⟩ ∧
      cvco coneFanMesh 11 = ⟨-(1/2), -(1/2), 1/2⟩ ∧
      cvco coneFanMesh 12 = ⟨-(1/2), 0, 1/2⟩ ∧
      coneFanMesh.edges.filter
        (fun e => (e.1 = 0 && 1 ≤ e.2 && e.2 ≤ 6) || (e.2 = 0 && 1 ≤ e.1 && e.1 ≤ 6)) = [] ∧
      (coneFanMesh.faces.filter (fun f => f.1.length = 3 && f.1.elem 0)).length = 6 ∧
      (coneFanMesh.faces.filter (fun f => f.1.length = 4)).length = 6 ∧
      coneFanMesh.faces.length = 12 ∧
      coneFanMesh.faces.filter (fun f => f.2) = [] ∧
      (coneFanMesh.verts.filter (fun v => v.2.2)).map (fun v => v.1) = [0] := by
  decide
theorem Vec3.add_x (a b : Vec3) : (a + b).x = a.x + b.x := rfl

theorem Vec3.add_y (a b : Vec3) : (a + b).y = a.y + b.y := rfl

theorem Vec3.add_z (a b : Vec3) : (a + b).z = a.z + b.z := rfl

theorem Vec3.sub_x (a b : Vec3) : (a - b).x = a.x - b.x := rfl

theorem Vec3.sub_y (a b : Vec3) : (a - b).y = a.y - b.y := rfl

theorem Vec3.sub_z (a b : Vec3) : (a - b).z = a.z - b.z := rfl

theorem Vec3.smul_x (q : ℚ) (a : Vec3) : (Vec3.smul q a).x = q * a.x := rfl

theorem Vec3.smul_y (q : ℚ) (a : Vec3) : (Vec3.smul q a).y = q * a.y := rfl

theorem Vec3.smul_z (q : ℚ) (a : Vec3) : (Vec3.smul q a).z = q * a.z := rfl

theorem Vec3.eq_of_comps {a b : Vec3} (hx : a.x = b.x) (hy : a.y = b.y) (hz : a.z = b.z) :
    a = b := by
  cases a; cases b; simp_all

theorem length_wr (st : List Vec3) (i : Nat) (v : Vec3) : (wr st i v).length = st.length :=
  List.length_set st i v

theorem length_move_to (st : List Vec3) (w : WallE) (g : Vec3) :
    (move_to st w g).length = st.length := by
  unfold move_to
  rw [length_wr, length_wr]

theorem length_move_vertically (st : List Vec3) (w : WallE) (g : ℚ) :
    (move_vertically st w g).length = st.length := length_move_to _ _ _

theorem move_to_rd_ne (st : List Vec3) (w : WallE) (g : Vec3) (i : Nat)
    (h1 : i ≠ w.1) (h2 : i ≠ w.2) : rd (move_to st w g) i = rd st i := by
  unfold move_to
  rw [rd_wr]
  simp only [(Ne.symm h2), false_and, if_false]
  rw [rd_wr]
  simp [(Ne.symm h1)]

theorem move_to_x (st : List Vec3) (w : WallE) (goal : Vec3)
    (h : goal.x = (edgeCenter st w).x) (i : Nat) :
    (rd (move_to st w goal) i).x = (rd st i).x := by
  unfold move_to
  have hmv : (goal - edgeCenter st w).x = 0 := by rw [Vec3.sub_x, h]; ring
  rw [rd_wr]
  split
  · rename_i hc
    rw [Vec3.add_x, hmv, rd_wr]
    split
    · rename_i hc2
      rw [Vec3.add_x, hmv]
      rw [← hc.1, ← hc2.1]
      ring
    · rw [← hc.1]
      ring
  · rw [rd_wr]
    split
    · rename_i hc2
      rw [Vec3.add_x, hmv, ← hc2.1]
      ring
    · rfl

theorem move_to_y (st : List Vec3) (w : WallE) (goal : Vec3)
    (h : goal.y = (edgeCenter st w).y) (i : Nat) :
    (rd (move_to st w goal) i).y = (rd st i).y := by
  unfold move_to
  have hmv : (goal - edgeCenter st w).y = 0 := by rw [Vec3.sub_y, h]; ring
  rw [rd_wr]
  split
  · rename_i hc
    rw [Vec3.add_y, hmv, rd_wr]
    split
    · rename_i hc2
      rw [Vec3.add_y, hmv, ← hc.1, ← hc2.1]
      ring
    · rw [← hc.1]
      ring
  · rw [rd_wr]
    split
    · rename_i hc2
      rw [Vec3.add_y, hmv, ← hc2.1]
      ring
    · rfl

theorem move_to_z (st : List Vec3) (w : WallE) (goal : Vec3)
    (h : goal.z = (edgeCenter st w).z) (i : Nat) :
    (rd (move_to st w goal) i).z = (rd st i).z := by
  unfold move_to
  have hmv : (goal - edgeCenter st w).z = 0 := by rw [Vec3.sub_z, h]; ring
  rw [rd_wr]
  split
  · rename_i hc
    rw [Vec3.add_z, hmv, rd_wr]
    split
    · rename_i hc2
      rw [Vec3.add_z, hmv, ← hc.1, ← hc2.1]
      ring
    · rw [← hc.1]
      ring
  · rw [rd_wr]
    split
    · rename_i hc2
      rw [Vec3.add_z, hmv, ← hc2.1]
      ring
    · rfl

theorem move_vertically_x (st : List Vec3) (w : WallE) (g : ℚ) (i : Nat) :
    (rd (move_vertically st w g) i).x = (rd st i).x := by
  unfold move_vertically
  simp only []
  exact move_to_x st w ⟨(edgeCenter st w).x, (edgeCenter st w).y, g⟩ rfl i

theorem move_vertically_y (st : List Vec3) (w : WallE) (g : ℚ) (i : Nat) :
    (rd (move_vertically st w g) i).y = (rd st i).y := by
  unfold move_vertically
  simp only []
  exact move_to_y st w ⟨(edgeCenter st w).x, (edgeCenter st w).y, g⟩ rfl i

theorem move_to_center (st : List Vec3) (w : WallE) (goal : Vec3)
    (h1 : w.1 ≠ w.2) (h2 : w.1 < st.length) (h3 : w.2 < st.length) :
    edgeCenter (move_to st w goal) w = goal := by
  have e1 : rd (move_to st w goal) w.1 = rd st w.1 + (goal - edgeCenter st w) := by
    unfold move_to
    rw [rd_wr]
    simp only [(Ne.symm h1), false_and, if_false]
    rw [rd_wr]
    simp [h2]
  have e2 : rd (move_to st w goal) w.2 = rd st w.2 + (goal - edgeCenter st w) := by
    unfold move_to
    rw [rd_wr]
    simp only [length_wr, h3, and_true, eq_self_iff_true, and_self, if_true]
    rw [rd_wr]
    simp [h1]
  unfold edgeCenter at e1 e2 ⊢
  rw [e1, e2]
  apply Vec3.eq_of_comps <;>
    simp [Vec3.smul_x, Vec3.smul_y, Vec3.smul_z, Vec3.add_x, Vec3.add_y, Vec3.add_z,
      Vec3.sub_x, Vec3.sub_y, Vec3.sub_z] <;> ring

theorem curveMovesV_xy (cs ch : ℚ) (steps : Nat) :
    ∀ (curve : List WallE) (st : List Vec3) (j i : Nat),
      (rd (curveMovesV cs ch steps st curve j) i).x = (rd st i).x ∧
      (rd (curveMovesV cs ch steps st curve j) i).y = (rd st i).y := by
  intro curve
  induction curve with
  | nil => intro st j i; exact ⟨rfl, rfl⟩
  | cons w rest ih =>
    intro st j i
    unfold curveMovesV
    constructor
    · rw [(ih _ _ i).1, move_vertically_x]
    · rw [(ih _ _ i).2, move_vertically_y]

theorem curveMovesV_rd_ne (cs ch : ℚ) (steps : Nat) :
    ∀ (curve : List WallE) (st : List Vec3) (j i : Nat),
      (∀ w ∈ curve, i ≠ w.1 ∧ i ≠ w.2) →
      rd (curveMovesV cs ch steps st curve j) i = rd st i := by
  intro curve
  induction curve with
  | nil => intro st j i _; rfl
  | cons w rest ih =>
    intro st j i hd
    unfold curveMovesV
    rw [ih _ _ i (fun v hv => hd v (List.mem_cons_of_mem _ hv))]
    unfold move_vertically
    exact move_to_rd_ne st w _ i (hd w (List.mem_cons_self _ _)).1 (hd w (List.mem_cons_self _ _)).2

theorem length_curveMovesV (cs ch : ℚ) (steps : Nat) :
    ∀ (curve : List WallE) (st : List Vec3) (j : Nat),
      (curveMovesV cs ch steps st curve j).length = st.length := by
  intro curve
  induction curve with
  | nil => intro st j; rfl
  | cons w rest ih =>
    intro st j
    unfold curveMovesV
    rw [ih, length_move_vertically]

theorem edgeCenter_congr {st st2 : List Vec3} (w : WallE)
    (h1 : rd st2 w.1 = rd st w.1) (h2 : rd st2 w.2 = rd st w.2) :
    edgeCenter st2 w = edgeCenter st w := by
  unfold edgeCenter
  rw [h1, h2]

theorem move_vertically_center_z (st : List Vec3) (w : WallE) (g : ℚ)
    (h1 : w.1 ≠ w.2) (h2 : w.1 < st.length) (h3 : w.2 < st.length) :
    (edgeCenter (move_vertically st w g) w).z = g := by
  unfold move_vertically
  simp only []
  rw [move_to_center st w _ h1 h2 h3]

theorem curveMovesV_centers (cs ch : ℚ) (steps : Nat) :
    ∀ (curve : List WallE) (st : List Vec3) (j : Nat),
      curve.Pairwise wallDisj → (∀ w ∈ curve, wallOk st w) →
      ∀ k (hk : k < curve.length),
        (edgeCenter (curveMovesV cs ch steps st curve j) (curve.get ⟨k, hk⟩)).z =
          cs + (((j : ℚ) + (k : ℚ)) / (steps : ℚ)) * ch := by
  intro curve
  induction curve with
  | nil => intro st j _ _ k hk; exact absurd hk (by simp)
  | cons w rest ih =>
    intro st j hp hok k hk
    rw [List.pairwise_cons] at hp
    match k with
    | 0 =>
      unfold curveMovesV
      simp only [List.get]
      have hrd : ∀ v ∈ rest, w.1 ≠ v.1 ∧ w.1 ≠ v.2 := by
        intro v hv
        have := hp.1 v hv
        exact ⟨this.1, this.2.1⟩
      have hrd2 : ∀ v ∈ rest, w.2 ≠ v.1 ∧ w.2 ≠ v.2 := by
        intro v hv
        have := hp.1 v hv
        exact ⟨this.2.2.1, this.2.2.2⟩
      have hok2 := hok w (List.mem_cons_self _ _)
      rw [edgeCenter_congr w
        (curveMovesV_rd_ne cs ch steps rest _ (j + 1) w.1 hrd)
        (curveMovesV_rd_ne cs ch steps rest _ (j + 1) w.2 hrd2)]
      rw [move_vertically_center_z st w _ hok2.1 hok2.2.1 hok2.2.2]
      push_cast
      ring
    | Nat.succ k2 =>
      unfold curveMovesV
      simp only [List.get]
      have hlen := length_move_vertically st w (cs + ((j : ℚ) / (steps : ℚ)) * ch)
      have := ih (move_vertically st w (cs + ((j : ℚ) / (steps : ℚ)) * ch)) (j + 1) hp.2
        (fun v hv => by
          have := hok v (List.mem_cons_of_mem _ hv)
          exact ⟨this.1, hlen ▸ this.2.1, hlen ▸ this.2.2⟩)
        k2 (by simpa using Nat.lt_of_succ_lt_succ hk)
      rw [this]
      push_cast
      ring

theorem wallDisj_symm : Symmetric wallDisj := by
  intro a b h
  obtain ⟨h1, h2, h3, h4⟩ := h
  exact ⟨Ne.symm h1, Ne.symm h3, Ne.symm h2, Ne.symm h4⟩

theorem sortedWalls_perm (st : List Vec3) (tc : Vec3) (walls : List WallE) :
    (sortedWalls st tc walls).Perm walls := by
  unfold sortedWalls
  split
  · exact List.perm_insertionSort _ _
  · exact List.Perm.refl _

theorem length_alignWall (target : Vec3) (st st2 : List Vec3) (w : WallE)
    (h : alignWall target st w = some st2) : st2.length = st.length := by
  unfold alignWall at h
  split at h
  · exact absurd h (by simp)
  · have := Option.some.inj h
    rw [← this, length_wr, length_wr]

theorem length_alignAll (target : Vec3) :
    ∀ (walls : List WallE) (st st2 : List Vec3),
      alignAll target walls st = some st2 → st2.length = st.length := by
  intro walls
  induction walls with
  | nil =>
    intro st st2 h
    have h2 : st = st2 := Option.some.inj (by simpa [alignAll] using h)
    rw [h2]
  | cons w rest ih =>
    intro st st2 h
    unfold alignAll at h
    split at h
    · exact absurd h (by simp)
    · rename_i stm hm
      rw [ih _ _ h, length_alignWall target st stm w hm]

theorem curveMovesH_z (minp : Vec3) (dist : ℚ) (direction : Vec3) (si so : ℚ) (steps : Nat) :
    ∀ (curve : List WallE) (st : List Vec3) (j i : Nat),
      (rd (curveMovesH minp dist direction si so steps st curve j) i).z = (rd st i).z := by
  intro curve
  induction curve with
  | nil => intro st j i; rfl
  | cons w rest ih =>
    intro st j i
    unfold curveMovesH
    rw [ih]
    exact move_to_z st w
      ⟨(minp + Vec3.smul (fast_in_out_bezier ((j : ℚ) / (steps : ℚ)) si so * dist) direction).x,
        (minp + Vec3.smul (fast_in_out_bezier ((j : ℚ) / (steps : ℚ)) si so * dist) direction).y,
        (edgeCenter st w).z⟩ rfl i

/-- Claim C2 (amended): `space_vertically` first rotates every wall to align
with `forward`, and that rotation can change X and Y (see the counterexample);
when the alignment step leaves the store unchanged (walls already parallel to
forward) the vertical moves change no X or Y coordinate; and
`space_horizontally` never changes any Z coordinate (each wall is moved to a
goal whose z is its own current center height). -/
theorem C2_spacing_amended :
    (∀ (forward top_center : Vec3) (min_z max_z sf : ℚ) (walls : List WallE)
        (st st2 : List Vec3), alignAll forward walls st = some st →
      space_vertically forward top_center min_z max_z sf walls st = some st2 →
      ∀ i, (rd st2 i).x = (rd st i).x ∧ (rd st2 i).y = (rd st i).y) ∧
    (∀ (top_edge : WallE) (top_center : Vec3) (si so : ℚ) (direction : Vec3)
        (walls : List WallE) (st st2 : List Vec3),
      space_horizontally top_edge top_center si so direction walls st = some st2 →
      ∀ i, (rd st2 i).z = (rd st i).z) := by
  constructor
  · intro fwd tc mnz mxz sf walls st st2 hAl hRun i
    unfold space_vertically at hRun
    by_cases hw : walls = []
    · rw [if_pos hw] at hRun
      rw [← Option.some.inj hRun]
      exact ⟨rfl, rfl⟩
    · rw [if_neg hw, hAl] at hRun
      rw [← Option.some.inj hRun]
      constructor
      · rw [(curveMovesV_xy _ _ _ _ _ _ i).1, move_vertically_x]
      · rw [(curveMovesV_xy _ _ _ _ _ _ i).2, move_vertically_y]
  · intro te tc si so dir walls st st2 hRun i
    unfold space_horizontally at hRun
    by_cases hw : walls = []
    · rw [if_pos hw] at hRun
      rw [← Option.some.inj hRun]
    · rw [if_neg hw] at hRun
      simp only [] at hRun
      split at hRun
      · exact absurd hRun (by simp)
      · rw [← Option.some.inj hRun]
        exact curveMovesH_z _ _ _ _ _ _ _ _ _ i

/-- Claim C7: an empty wall list is a no-op; for a nonempty list of wall
edges (pairwise vertex-disjoint, valid, with representable alignment) the wall
sorted lowest by the height/distance key ends with center z equal to
`min_z + height * start_fraction`, and each remaining wall `i` of the sorted
order (i = 1..steps-1, steps = number of remaining walls + 1) ends at the
linear fraction `i/steps` between there and `max_z` — no easing. -/
theorem C7_space_vertically_placement :
    (∀ (forward top_center : Vec3) (min_z max_z sf : ℚ) (st : List Vec3),
      space_vertically forward top_center min_z max_z sf [] st = some st) ∧
    (∀ (forward top_center : Vec3) (min_z max_z sf : ℚ) (walls : List WallE)
        (st st1 st2 : List Vec3),
      walls ≠ [] → alignAll forward walls st = some st1 →
      walls.Pairwise wallDisj → (∀ w ∈ walls, wallOk st w) →
      space_vertically forward top_center min_z max_z sf walls st = some st2 →
      (edgeCenter st2 ((sortedWalls st1 top_center walls).headD (0, 0))).z =
        min_z + (max_z - min_z) * sf ∧
      ∀ k (hk : k < (sortedWalls st1 top_center walls).tail.length),
        (edgeCenter st2 ((sortedWalls st1 top_center walls).tail.get ⟨k, hk⟩)).z =
          (min_z + (max_z - min_z) * sf) +
            (((k : ℚ) + 1) / (((sortedWalls st1 top_center walls).tail.length : ℚ) + 1)) *
              (max_z - (min_z + (max_z - min_z) * sf))) := by
  constructor
  · intro fwd tc mnz mxz sf st
    simp [space_vertically]
  · intro fwd tc mnz mxz sf walls st st1 st2 hne hAl hPair hOk hRun
    unfold space_vertically at hRun
    rw [if_neg hne, hAl] at hRun
    simp only [] at hRun
    have hst2 := Option.some.inj hRun
    have hperm := sortedWalls_perm st1 tc walls
    have hlen1 := length_alignAll fwd walls st st1 hAl
    have hPairSw : (sortedWalls st1 tc walls).Pairwise wallDisj :=
      (hperm.pairwise_iff (fun hxy => wallDisj_symm hxy)).mpr hPair
    have hOkSw : ∀ w ∈ sortedWalls st1 tc walls, wallOk st1 w := by
      intro w hw
      have := hOk w (hperm.mem_iff.mp hw)
      exact ⟨this.1, hlen1 ▸ this.2.1, hlen1 ▸ this.2.2⟩
    have hswne : sortedWalls st1 tc walls ≠ [] := by
      intro hcon
      have := hperm.length_eq
      rw [hcon] at this
      exact hne (List.eq_nil_of_length_eq_zero this.symm)
    obtain ⟨eos, curve, hcons⟩ := List.exists_cons_of_ne_nil hswne
    rw [hcons] at hst2 hPairSw hOkSw ⊢
    simp only [List.headD_cons, List.tail_cons] at hst2 ⊢
    rw [List.pairwise_cons] at hPairSw
    have hOkEos := hOkSw eos (List.mem_cons_self _ _)
    have hOkCurve : ∀ w ∈ curve, wallOk (move_vertically st1 eos (mnz + (mxz - mnz) * sf)) w := by
      intro w hw
      have := hOkSw w (List.mem_cons_of_mem _ hw)
      have hl := length_move_vertically st1 eos (mnz + (mxz - mnz) * sf)
      exact ⟨this.1, hl ▸ this.2.1, hl ▸ this.2.2⟩
    constructor
    · -- the end-of-straight wall
      rw [← hst2]
      have hrd1 : ∀ v ∈ curve, eos.1 ≠ v.1 ∧ eos.1 ≠ v.2 := by
        intro v hv
        have := hPairSw.1 v hv
        exact ⟨this.1, this.2.1⟩
      have hrd2 : ∀ v ∈ curve, eos.2 ≠ v.1 ∧ eos.2 ≠ v.2 := by
        intro v hv
        have := hPairSw.1 v hv
        exact ⟨this.2.2.1, this.2.2.2⟩
      rw [edgeCenter_congr eos
        (curveMovesV_rd_ne _ _ _ curve _ 1 eos.1 hrd1)
        (curveMovesV_rd_ne _ _ _ curve _ 1 eos.2 hrd2)]
      exact move_vertically_center_z st1 eos _ hOkEos.1 hOkEos.2.1 hOkEos.2.2
    · intro k hk
      rw [← hst2]
      have := curveMovesV_centers (mnz + (mxz - mnz) * sf)
        (mxz - (mnz + (mxz - mnz) * sf)) (curve.length + 1) curve
        (move_vertically st1 eos (mnz + (mxz - mnz) * sf)) 1 hPairSw.2 hOkCurve k hk
      rw [this]
      push_cast
      ring

/-- Counterexample to claim C2: aligning the single wall (a y-axis edge) to
`forward = (1,0,0)` rotates both endpoints a quarter turn about the midpoint,
changing vertex 0's X coordinate from 0 to -1/2 (and its Y from 0 to 1/2), so
`space_vertically` does change X and Y coordinates. -/
theorem C2_counterexample :
    space_vertically ⟨1, 0, 0⟩ ⟨0, 0, 5⟩ 0 1 0 [(0, 1)] [⟨0, 0, 0⟩, ⟨0, 1, 0⟩] =
        some [⟨-(1/2), 1/2, 0⟩, ⟨1/2, 1/2, 0⟩] ∧
      (rd [⟨-(1/2), 1/2, 0⟩, ⟨1/2, 1/2, 0⟩] 0).x ≠ (rd [⟨0, 0, 0⟩, ⟨0, 1, 0⟩] 0).x := by
  decide

/-- Witness for the amended C2 on concrete aligned walls and a concrete
horizontal run. -/
theorem C2_spacing_amended_witness :
    ((rd spacerResV 0).x = (rd spacerStV 0).x ∧ (rd spacerResV 0).y = (rd spacerStV 0).y) ∧
      (rd spacerResH 2).z = (rd spacerStH 2).z :=
  ⟨C2_spacing_amended.1 ⟨1, 0, 0⟩ ⟨0, 0, 9⟩ 0 1 (1/2) spacerWallsV spacerStV spacerResV
      (by decide) (by decide) 0,
    C2_spacing_amended.2 (4, 5) ⟨0, 0, 9⟩ 0 0 ⟨0, 1, 0⟩ spacerWallsH spacerStH spacerResH
      (by decide) 2⟩

/-- Witness for C7: two stacked walls with `min_z = 0`, `max_z = 2`,
`start_fraction = 1/2` end at center heights 1 and 3/2. -/
theorem C7_space_vertically_placement_witness :
    (edgeCenter placeRes ((sortedWalls placeSt ⟨0, 0, 2⟩ placeWalls).headD (0, 0))).z = 1 ∧
      (edgeCenter placeRes
        ((sortedWalls placeSt ⟨0, 0, 2⟩ placeWalls).tail.get ⟨0, by decide⟩)).z = 3/2 := by
  constructor
  · have h := (C7_space_vertically_placement.2 ⟨1, 0, 0⟩ ⟨0, 0, 2⟩ 0 2 (1/2) placeWalls
      placeSt placeSt placeRes (by decide) (by decide) (by decide) (by decide) (by decide)).1
    rw [h]
    decide
  · have h := (C7_space_vertically_placement.2 ⟨1, 0, 0⟩ ⟨0, 0, 2⟩ 0 2 (1/2) placeWalls
      placeSt placeSt placeRes (by decide) (by decide) (by decide) (by decide) (by decide)).2
      0 (by decide)
    rw [h]
    decide
